import Mathlib

set_option maxHeartbeats 2000000
set_option maxRecDepth 4000

namespace MiniBookmark

/-! Shallow embedding of src/parser.py, the content-extraction pipeline of
the mini-bookmark service.  HTML documents (BeautifulSoup trees) are
modelled as a mutual inductive of nodes and forests; every function below
carries the name of the Python function it embeds. -/

mutual
/-- A parsed HTML node: either a text node (a NavigableString) or an
element with a tag name, an attribute list and ordered children.  A whole
document is represented by a root element with tag name "[document]",
matching the BeautifulSoup object. -/
inductive HNode where
  | text (s : String)
  | elem (tag : String) (attrs : List (String × String)) (children : HForest)
deriving DecidableEq
/-- An ordered list of sibling HTML nodes. -/
inductive HForest where
  | nil
  | cons (head : HNode) (tail : HForest)
deriving DecidableEq
end

/-- Convert a forest to a plain list of nodes. -/
def HForest.toList : HForest → List HNode
  | .nil => []
  | .cons c cs => c :: cs.toList

/-- Build a forest from a plain list of nodes. -/
def HForest.ofList : List HNode → HForest
  | [] => .nil
  | c :: cs => .cons c (HForest.ofList cs)

/-- Shorthand for an element without attributes. -/
def el (t : String) (cs : List HNode) : HNode := .elem t [] (HForest.ofList cs)

/-- Shorthand for an element with attributes. -/
def elA (t : String) (attrs : List (String × String)) (cs : List HNode) : HNode :=
  .elem t attrs (HForest.ofList cs)

/-- Shorthand for a text node. -/
def tx (s : String) : HNode := .text s

/-- Characters of a string.  All string manipulation below is performed on
character lists so that every definition evaluates by kernel reduction. -/
def chars (s : String) : List Char := s.data

/-- Build a string from a character list. -/
def strOf (l : List Char) : String := String.mk l

/-- Python str.strip(): remove leading and trailing whitespace. -/
def pyStrip (s : String) : String :=
  strOf ((((chars s).dropWhile Char.isWhitespace).reverse.dropWhile Char.isWhitespace).reverse)

/-- Python str.lower(), modelled on ASCII letters. -/
def pyLower (s : String) : String := strOf ((chars s).map Char.toLower)

/-- Python str.startswith. -/
def pyStartsWith (s pre : String) : Bool := (chars pre).isPrefixOf (chars s)

/-- Python len() of a string. -/
def pyLen (s : String) : Nat := (chars s).length

/-- Python substring containment, the `in` operator on strings. -/
def strContains (hay needle : String) : Bool :=
  let h := chars hay
  let n := chars needle
  (List.range (h.length + 1)).any (fun i => n.isPrefixOf (h.drop i))

/-- Index of the first occurrence of a substring, if any. -/
def strFindSub (hay needle : String) : Option Nat :=
  let h := chars hay
  let n := chars needle
  (List.range (h.length + 1)).find? (fun i => n.isPrefixOf (h.drop i))

/-- Python str.isdigit(), modelled on ASCII digits: nonempty and all
characters are digits. -/
def strIsDigit (s : String) : Bool :=
  !(chars s).isEmpty && (chars s).all Char.isDigit

/-- Attribute lookup on an attribute list (Tag.get / attrs membership). -/
def attrGet (attrs : List (String × String)) (key : String) : Option String :=
  (attrs.find? (fun kv => kv.1 == key)).map (fun kv => kv.2)

/-- Tag name of a node, none for text nodes (NavigableString.name is None). -/
def HNode.tagOf : HNode → Option String
  | .text _ => none
  | .elem t _ _ => some t

/-- Attribute list of a node. -/
def HNode.attrsOf : HNode → List (String × String)
  | .text _ => []
  | .elem _ a _ => a

/-- Immediate children of a node as a list (Tag.children). -/
def HNode.childrenOf : HNode → List HNode
  | .text _ => []
  | .elem _ _ cs => cs.toList

mutual
/-- Tag.get_text with strip False and the empty separator: the
concatenation of all text descendants in document order. -/
def getTextRaw : HNode → String
  | .text s => s
  | .elem _ _ cs => getTextRawF cs
/-- get_text with strip False over a forest. -/
def getTextRawF : HForest → String
  | .nil => ""
  | .cons c cs => getTextRaw c ++ getTextRawF cs
end

mutual
/-- Tag.get_text with strip True: every text descendant is stripped of
surrounding whitespace and the stripped pieces are concatenated. -/
def getTextStrip : HNode → String
  | .text s => pyStrip s
  | .elem _ _ cs => getTextStripF cs
/-- get_text with strip True over a forest. -/
def getTextStripF : HForest → String
  | .nil => ""
  | .cons c cs => getTextStrip c ++ getTextStripF cs
end

mutual
/-- find_all with a predicate: all element descendants satisfying p, in
document order; the node itself is not included (BeautifulSoup searches
descendants only). -/
def findAllP (p : HNode → Bool) : HNode → List HNode
  | .text _ => []
  | .elem _ _ cs => findAllPF p cs
/-- find_all over a forest: each matching root comes before its own
matching descendants. -/
def findAllPF (p : HNode → Bool) : HForest → List HNode
  | .nil => []
  | .cons c cs => (if p c then [c] else []) ++ findAllP p c ++ findAllPF p cs
end

mutual
/-- find with a predicate: the first element descendant satisfying p in
document order, if any. -/
def findFirstP (p : HNode → Bool) : HNode → Option HNode
  | .text _ => none
  | .elem _ _ cs => findFirstPF p cs
/-- find over a forest. -/
def findFirstPF (p : HNode → Bool) : HForest → Option HNode
  | .nil => none
  | .cons c cs =>
    if p c then some c
    else
      match findFirstP p c with
      | some r => some r
      | none => findFirstPF p cs
end

/-- find_all restricted to a list of tag names. -/
def findAllByNames (names : List String) (n : HNode) : List HNode :=
  findAllP (fun c => match c.tagOf with | some t => names.contains t | none => false) n

/-! Regular-expression models.  Each scanner below models one fixed regex
from src/parser.py, with re.search / re.match semantics spelled out by
character scanning (word characters model the re module's word class on
ASCII input). -/

/-- Word character for the word-boundary assertions of the source regexes. -/
def isWordChar (c : Char) : Bool := c.isAlphanum || c == '_'

/-- Trailing word boundary: the next character is absent or not a word
character. -/
def boundaryAfter : List Char → Bool
  | [] => true
  | c :: _ => !isWordChar c

/-- Leading word boundary given the previous character. -/
def boundaryBefore : Option Char → Bool
  | none => true
  | some c => !isWordChar c

/-- Full-string matcher for the anchor-text regex
matching either a digit run or a digit run, whitespace, and the word
comment with an optional s, case-insensitively (re.match anchored by
dollar). -/
def numericCommentsPat (s : String) : Bool :=
  let l := chars s
  let ds := l.takeWhile Char.isDigit
  let rest1 := l.drop ds.length
  if ds.isEmpty then false
  else if rest1.isEmpty then true
  else
    let ws := rest1.takeWhile Char.isWhitespace
    let rest2 := rest1.drop ws.length
    if ws.isEmpty then false
    else
      let w := pyLower (strOf rest2)
      w == "comment" || w == "comments"

/-- Matcher at one position for the version-number regex: a word boundary,
a digit run, a dot, a digit run, an optional further dot and digit run, and
a trailing word boundary; the optional group backtracks when the trailing
boundary fails. -/
def versionAt (prev : Option Char) (l : List Char) : Bool :=
  boundaryBefore prev &&
  (let d1 := l.takeWhile Char.isDigit
   if d1.isEmpty then false
   else
     match l.drop d1.length with
     | '.' :: r1 =>
       let d2 := r1.takeWhile Char.isDigit
       if d2.isEmpty then false
       else
         let r2 := r1.drop d2.length
         (match r2 with
          | '.' :: r3 =>
            let d3 := r3.takeWhile Char.isDigit
            (!d3.isEmpty && boundaryAfter (r3.drop d3.length)) || boundaryAfter r2
          | _ => boundaryAfter r2)
     | _ => false)

/-- re.search of the version-number regex over a character list. -/
def versionScan (prev : Option Char) : List Char → Bool
  | [] => false
  | c :: rest => versionAt prev (c :: rest) || versionScan (some c) rest

/-- re.search of the version-number regex over a string. -/
def hasVersionPat (s : String) : Bool := versionScan none (chars s)

/-- The twelve month abbreviations of the date regexes. -/
def monthNames : List String :=
  ["Jan", "Feb", "Mar", "Apr", "May", "Jun", "Jul", "Aug", "Sep", "Oct", "Nov", "Dec"]

/-- Matcher at one position for the month-name date regex: a word boundary,
a month abbreviation, whitespace, one or two digits, an optional comma,
whitespace, exactly four digits and a trailing word boundary.  Returns the
matched length.  The day quantifier needs no backtracking: when taking two
digits fails, the follow-up after one digit is a digit and fails too. -/
def monthDateAt (prev : Option Char) (l : List Char) : Option Nat :=
  if !boundaryBefore prev then none
  else
    match monthNames.find? (fun m => (chars m).isPrefixOf l) with
    | none => none
    | some _ =>
      let r1 := l.drop 3
      let ws1 := (r1.takeWhile Char.isWhitespace).length
      if ws1 == 0 then none
      else
        let r2 := r1.drop ws1
        let nd := (r2.takeWhile Char.isDigit).length
        if nd == 0 || 3 ≤ nd then none
        else
          let r3 := r2.drop nd
          let hasComma := match r3 with | ',' :: _ => true | _ => false
          let r4 := if hasComma then r3.drop 1 else r3
          let ws2 := (r4.takeWhile Char.isWhitespace).length
          if ws2 == 0 then none
          else
            let r5 := r4.drop ws2
            let ny := (r5.takeWhile Char.isDigit).length
            if ny < 4 then none
            else if !boundaryAfter (r5.drop 4) then none
            else some (3 + ws1 + nd + (if hasComma then 1 else 0) + ws2 + 4)

/-- Scan for the month-name date regex, returning the leftmost match. -/
def monthDateScan (prev : Option Char) : List Char → Option String
  | [] => none
  | c :: rest =>
    match monthDateAt prev (c :: rest) with
    | some n => some (strOf ((c :: rest).take n))
    | none => monthDateScan (some c) rest

/-- re.search of the month-name date regex over a string. -/
def searchMonthDate (s : String) : Option String := monthDateScan none (chars s)

/-- Matcher at one position for the ISO date regex: four digits, a dash,
two digits, a dash, two digits, with no boundary assertions. -/
def isoDateAt (l : List Char) : Bool :=
  match l with
  | a :: b :: c :: d :: '-' :: e :: f :: '-' :: g :: h :: _ =>
    a.isDigit && b.isDigit && c.isDigit && d.isDigit &&
    e.isDigit && f.isDigit && g.isDigit && h.isDigit
  | _ => false

/-- Scan for the ISO date regex, returning the leftmost match. -/
def isoScan : List Char → Option String
  | [] => none
  | c :: rest =>
    if isoDateAt (c :: rest) then some (strOf ((c :: rest).take 10))
    else isoScan rest

/-- Matcher at one position for the slash date regex: two digits, a slash,
two digits, a slash, four digits. -/
def slashDateAt (l : List Char) : Bool :=
  match l with
  | a :: b :: '/' :: c :: d :: '/' :: e :: f :: g :: h :: _ =>
    a.isDigit && b.isDigit && c.isDigit && d.isDigit &&
    e.isDigit && f.isDigit && g.isDigit && h.isDigit
  | _ => false

/-- Scan for the slash date regex, returning the leftmost match. -/
def slashScan : List Char → Option String
  | [] => none
  | c :: rest =>
    if slashDateAt (c :: rest) then some (strOf ((c :: rest).take 10))
    else slashScan rest

/-- Numeric value of a digit run. -/
def digitsToNat (l : List Char) : Nat :=
  l.foldl (fun a c => a * 10 + (c.toNat - '0'.toNat)) 0

/-! URL helpers.  Modelled from the documented behavior of
urllib.parse.urljoin and urlparse for the URL shapes this development
uses; dot-segment normalisation is not modelled. -/

/-- Cut a string before the first occurrence of any stop character. -/
def stripAfter (s : String) (stops : List Char) : String :=
  strOf ((chars s).takeWhile (fun c => !(stops.contains c)))

/-- Scheme and authority of a URL, such as the scheme, the separator and
the host of an absolute http URL. -/
def schemeHostOf (base : String) : String :=
  match strFindSub base "://" with
  | none => ""
  | some i =>
    let rest := (chars base).drop (i + 3)
    strOf ((chars base).take (i + 3) ++ rest.takeWhile (fun c => c != '/' && c != '?' && c != '#'))

/-- Base URL up to and including the last slash of its path, used to
resolve a relative reference. -/
def dirOf (base : String) : String :=
  let sh := schemeHostOf base
  let p := ((chars base).drop (pyLen sh)).takeWhile (fun c => c != '?' && c != '#')
  let dir := (p.reverse.dropWhile (fun c => c != '/')).reverse
  if dir.isEmpty then sh ++ "/" else sh ++ strOf dir

/-- urllib.parse.urljoin: absolute references are kept; network-relative,
root-relative, query-only and fragment-only references are resolved against
the base; any other relative reference replaces the base's last path
segment. -/
def urljoin (base url : String) : String :=
  if url == "" then base
  else if (strFindSub url "://").isSome then url
  else if pyStartsWith url "//" then
    (match strFindSub base "://" with
     | some i => strOf ((chars base).take i) ++ ":" ++ url
     | none => url)
  else if pyStartsWith url "/" then schemeHostOf base ++ url
  else if pyStartsWith url "?" then stripAfter base ['?', '#'] ++ url
  else if pyStartsWith url "#" then stripAfter base ['#'] ++ url
  else dirOf base ++ url

/-- urlparse().netloc for the URL shapes used here. -/
def urlNetloc (u : String) : String :=
  match strFindSub u "://" with
  | none => ""
  | some i =>
    strOf (((chars u).drop (i + 3)).takeWhile (fun c => c != '/' && c != '?' && c != '#'))

/-- urlparse().path for the URL shapes used here. -/
def urlPath (u : String) : String :=
  match strFindSub u "://" with
  | none => stripAfter u ['?', '#']
  | some i =>
    let rest := ((chars u).drop (i + 3)).dropWhile (fun c => c != '/' && c != '?' && c != '#')
    strOf (rest.takeWhile (fun c => c != '?' && c != '#'))

/-! The data model of extracted content: inline spans, content items, links
and page results, mirroring the dict shapes built by src/parser.py. -/

/-- A harvested hyperlink record with text and href keys. -/
structure Link where
  text : String
  href : String
deriving DecidableEq

/-- An inline span produced by the paragraph decomposer: a dict with a tag
key (None for a plain text run), a text key, and an href key present only
on link spans. -/
structure Span where
  tag : Option String
  text : String
  href : Option String
deriving DecidableEq

/-- One entry of the content list of a pre block: either a child rendered
to a tagged text line, or a span child flattened to its own tagged lines. -/
inductive PreChild where
  | plain (tag : Option String) (text : String)
  | span (content : List (Option String × String))
deriving DecidableEq

/-- The value stored under the text key of a content item: a plain string
for headings, paragraphs and strong items; a list of spans for a decomposed
paragraph; a list of item strings for a list block; the structured content
of a pre block. -/
inductive Payload where
  | str (s : String)
  | spans (l : List Span)
  | items (l : List String)
  | pre (l : List PreChild)
deriving DecidableEq

/-- One extracted content node: a dict with a tag key and a text key. -/
structure Item where
  tag : String
  payload : Payload
deriving DecidableEq

/-- Decidable equality for Except values, used to evaluate results that
model raised exceptions. -/
instance {ε α : Type} [DecidableEq ε] [DecidableEq α] : DecidableEq (Except ε α) := fun x y =>
  match x, y with
  | .error a, .error b =>
    if h : a = b then isTrue (by rw [h]) else isFalse (fun hc => h (Except.error.inj hc))
  | .error _, .ok _ => isFalse (fun hc => Except.noConfusion hc)
  | .ok _, .error _ => isFalse (fun hc => Except.noConfusion hc)
  | .ok a, .ok b =>
    if h : a = b then isTrue (by rw [h]) else isFalse (fun hc => h (Except.ok.inj hc))

/-! Content extraction functions (src/parser.py lines 58-212).  The
blockquote-claimed text set is threaded as an explicit list; Python mutates
a set in place, and only membership is ever observed. -/

/-- extract_text_content: a NavigableString child is stripped and emitted
as an untagged span unless empty or already blockquote-claimed. -/
def extract_text_content (s : String) (blockquote_text : List String) : Option Span :=
  let text := pyStrip s
  if text != "" && !(blockquote_text.contains text) then some ⟨none, text, none⟩ else none

/-- The denylist of the paragraph-embedded link filter. -/
def ignoredTermsPara : List String :=
  ["sign up", "sign in", "follow", "login", "register", "subscribe",
   "next", "previous", "older", "newer", "back", "forward",
   "first", "last", "page", "comment", "reply", "edit",
   "« previous", "next »", "<<", ">>", "«", "»",
   "terms", "privacy", "cookie", "about us", "contact",
   "rss", "feed", "archive", "category", "tag"]

/-- extract_link_content: the anchor's stripped text and its href resolved
against the base URL; accepted only when the lowercased text is not
blockquote-claimed, contains no denylist term, is not a pure digit run, is
longer than one character and does not match the numeric-comments regex,
and the resolved href starts with http. -/
def extract_link_content (tag : HNode) (blockquote_text : List String) (base_url : String) :
    Option Span × Option Link :=
  let text := getTextStrip tag
  let href := urljoin base_url ((attrGet tag.attrsOf "href").getD "")
  if !(blockquote_text.contains (pyLower text)) &&
     !(ignoredTermsPara.any (fun term => strContains (pyLower text) term)) &&
     !(strIsDigit (pyStrip text)) &&
     pyStartsWith href "http" &&
     1 < pyLen (pyStrip text) &&
     !(numericCommentsPat (pyStrip text)) then
    (some ⟨some "a", text, some href⟩, some ⟨text, href⟩)
  else (none, none)

/-- extract_strong_content: a strong child is emitted with its stripped
text unless the text is blockquote-claimed; an empty text is not
suppressed here. -/
def extract_strong_content (tag : HNode) (blockquote_text : List String) : Option Span :=
  let text := getTextStrip tag
  if !(blockquote_text.contains text) then some ⟨some "strong", text, none⟩ else none

/-- Python str.rstrip with a newline argument: remove trailing newlines. -/
def rstripNL (s : String) : String :=
  strOf (((chars s).reverse.dropWhile (fun c => c == '\n')).reverse)

/-- One child of a span inside a pre block, per extract_pre_content. -/
def preSpanChild (c : HNode) : Option String × String :=
  match c with
  | .text s => (none, rstripNL s)
  | .elem "br" _ _ => (some "br", "")
  | .elem t _ _ => (some t, rstripNL (getTextRaw c))

/-- extract_pre_content: walks the immediate children of a pre block,
keeping raw text with trailing newlines stripped; span children are
flattened one level, br children become explicit break markers, and other
children are rendered as their raw text under their own tag name.  A pre
node is always produced. -/
def extract_pre_content (tag : HNode) : Item :=
  let content := tag.childrenOf.map (fun child =>
    match child with
    | .text s => PreChild.plain none (rstripNL s)
    | .elem "span" _ _ => PreChild.span (child.childrenOf.map preSpanChild)
    | .elem "br" _ _ => PreChild.plain (some "br") ""
    | .elem t _ _ => PreChild.plain (some t) (rstripNL (getTextRaw child)))
  ⟨"pre", .pre content⟩

/-- extract_list_content: the direct li children whose stripped text is
nonempty, not blockquote-claimed and that contain no anchor; a node is
produced only when at least one item survives. -/
def extract_list_content (tag : HNode) (blockquote_text : List String) : Option Item :=
  let list_items := (tag.childrenOf.filter (fun li => li.tagOf == some "li")).filterMap
    (fun li =>
      let t := getTextStrip li
      if t != "" && !(blockquote_text.contains t) &&
         (findFirstP (fun n => n.tagOf == some "a") li).isNone
      then some t else none)
  if list_items != [] then some ⟨tag.tagOf.getD "", .items list_items⟩ else none

/-- extract_paragraph_content: decomposes the immediate children of a
paragraph into text, link and strong spans in order, collecting the links
of accepted link spans; when is_blockquote is set every emitted span text
is added to the blockquote-claimed set, which is returned updated since
Python mutates it in place. -/
def extract_paragraph_content (tag : HNode) (blockquote_text : List String)
    (base_url : String) (is_blockquote : Bool := false) :
    (Option Item × List Link) × List String :=
  let step := fun (acc : List Span × List Link × List String) (child : HNode) =>
    let (pc, links, bq) := acc
    match child with
    | .text s =>
      match extract_text_content s bq with
      | some sp => (pc ++ [sp], links, if is_blockquote then bq ++ [sp.text] else bq)
      | none => (pc, links, bq)
    | .elem t _ _ =>
      if t == "a" then
        match extract_link_content child bq base_url with
        | (some sp, some l) =>
          (pc ++ [sp], links ++ [l], if is_blockquote then bq ++ [sp.text] else bq)
        | _ => (pc, links, bq)
      else if t == "strong" then
        match extract_strong_content child bq with
        | some sp => (pc ++ [sp], links, if is_blockquote then bq ++ [sp.text] else bq)
        | none => (pc, links, bq)
      else (pc, links, bq)
  let r := tag.childrenOf.foldl step ([], [], blockquote_text)
  ((if r.1 != [] then some ⟨"p", .spans r.1⟩ else none, r.2.1), r.2.2)

/-- The tag startswith h test of filter_empty_headings. -/
def isHeadingTag (t : String) : Bool := pyStartsWith t "h"

/-- filter_empty_headings: the source loops over indices, dropping every
item whose tag starts with h when it is the last item or the next item's
tag also starts with h; the same rule expressed by structural recursion. -/
def filter_empty_headings : List Item → List Item
  | [] => []
  | [x] => if isHeadingTag x.tag then [] else [x]
  | x :: y :: rest =>
    (if isHeadingTag x.tag && isHeadingTag y.tag then [] else [x]) ++
      filter_empty_headings (y :: rest)

/-- The tag-name list walked by extract_content's find_all. -/
def contentTags : List String :=
  ["p", "h1", "h2", "h3", "h4", "h5", "h6", "blockquote", "pre", "strong"]

/-- The body of extract_content's loop over the found tags.  The source
calls extract_blockquote_content with a single argument although that
function declares three required parameters, so reaching a blockquote
raises TypeError, modelled as an error. -/
def buildContent : List HNode → Except Unit (List Item)
  | [] => .ok []
  | t :: ts =>
    let name := t.tagOf.getD ""
    if name == "blockquote" then .error ()
    else if name == "pre" then
      match buildContent ts with
      | .error e => .error e
      | .ok rest => .ok (extract_pre_content t :: rest)
    else if name == "strong" then
      match buildContent ts with
      | .error e => .error e
      | .ok rest => .ok (⟨"strong", .str (getTextStrip t)⟩ :: rest)
    else
      let text := getTextStrip t
      match buildContent ts with
      | .error e => .error e
      | .ok rest => if text != "" then .ok (⟨name, .str text⟩ :: rest) else .ok rest

/-- extract_content: walks every p, h1-h6, blockquote, pre and strong
descendant of the main content in document order, then applies the
heading post-pass. -/
def extract_content (main_content : HNode) : Except Unit (List Item) :=
  match buildContent (findAllByNames contentTags main_content) with
  | .error e => .error e
  | .ok content => .ok (filter_empty_headings content)

/-- The denylist of the standalone link harvester. -/
def ignoredTermsHarvest : List String :=
  ["previous", "next", "older", "newer", "«", "»",
   "first", "last", "page", "comment", "reply"]

/-- extract_links: every anchor with an href attribute anywhere in the
document; anchors whose text contains a version-number or month-name date
pattern are skipped, then the text and scheme filters apply.  The harvester
requires nonempty text but has no two-character minimum. -/
def extract_links (soup : HNode) (base_url : String) : List Link :=
  (findAllP (fun n => n.tagOf == some "a" && (attrGet n.attrsOf "href").isSome) soup).filterMap
    (fun a_tag =>
      let href := urljoin base_url ((attrGet a_tag.attrsOf "href").getD "")
      let text := getTextStrip a_tag
      if hasVersionPat text || (searchMonthDate text).isSome then none
      else if pyStartsWith href "http" && text != "" &&
        !(ignoredTermsHarvest.any (fun term => strContains (pyLower text) term)) &&
        !(strIsDigit (pyStrip text)) &&
        !(numericCommentsPat (pyStrip text)) then some ⟨text, href⟩
      else none)

/-! Main-content location (find_main_content, src/parser.py lines 35-55).
The Python function mutates the caller's soup in place: boilerplate
elements are decomposed from the document itself, and link-only lists are
decomposed from the selected container, which is a live subtree of the
document.  The pure model therefore returns the mutated document together
with the selected container. -/

/-- The structural boilerplate tag names decomposed by find_main_content. -/
def boilerplateTags : List String := ["nav", "header", "footer", "aside"]

mutual
/-- Decompose every nav, header, footer and aside element: each matching
subtree is removed from the tree. -/
def removeBoilerplate : HNode → HNode
  | .text s => .text s
  | .elem t a cs => .elem t a (removeBoilerplateF cs)
/-- Boilerplate removal over a forest. -/
def removeBoilerplateF : HForest → HForest
  | .nil => .nil
  | .cons c cs =>
    match c with
    | .text s => .cons (.text s) (removeBoilerplateF cs)
    | .elem t a gs =>
      if boilerplateTags.contains t then removeBoilerplateF cs
      else .cons (.elem t a (removeBoilerplateF gs)) (removeBoilerplateF cs)
end

/-- The class-attribute vocabulary of the container selector. -/
def classKeywords : List String := ["content", "main", "article", "post"]

/-- The first candidate selector: a div whose class attribute is truthy and
contains one of the vocabulary words.  The class attribute is modelled as
its space-joined string; since no keyword contains a space, substring
containment in the joined string and in some individual class agree. -/
def divClassPred (n : HNode) : Bool :=
  n.tagOf == some "div" &&
  (match attrGet n.attrsOf "class" with
   | none => false
   | some x => x != "" && classKeywords.any (fun c => strContains x c))

/-- The second candidate selector. -/
def articlePred (n : HNode) : Bool := n.tagOf == some "article"

/-- The third candidate selector. -/
def mainPred (n : HNode) : Bool := n.tagOf == some "main"

/-- The link-only test of the list pruning step: every li descendant of the
ul contains an anchor; vacuously true for a ul without li descendants. -/
def liAllHaveLinks (ul : HNode) : Bool :=
  (findAllP (fun n => n.tagOf == some "li") ul).all
    (fun li => (findFirstP (fun n => n.tagOf == some "a") li).isSome)

mutual
/-- Decompose every ul all of whose li descendants contain an anchor; each
ul is judged on its own subtree, matching the sequential decompose loop. -/
def pruneLinkULs : HNode → HNode
  | .text s => .text s
  | .elem t a cs => .elem t a (pruneLinkULsF cs)
/-- Link-only list pruning over a forest. -/
def pruneLinkULsF : HForest → HForest
  | .nil => .nil
  | .cons c cs =>
    match c with
    | .text s => .cons (.text s) (pruneLinkULsF cs)
    | .elem t a gs =>
      if t == "ul" && liAllHaveLinks (.elem t a gs) then pruneLinkULsF cs
      else .cons (.elem t a (pruneLinkULsF gs)) (pruneLinkULsF cs)
end

mutual
/-- Apply f to the first element (document order) satisfying p, leaving the
rest of the tree unchanged; the boolean reports whether a node was found. -/
def mapAtFirst (p : HNode → Bool) (f : HNode → HNode) : HNode → HNode × Bool
  | .text s => (.text s, false)
  | .elem t a cs =>
    let r := mapAtFirstF p f cs
    (.elem t a r.1, r.2)
/-- mapAtFirst over a forest. -/
def mapAtFirstF (p : HNode → Bool) (f : HNode → HNode) : HForest → HForest × Bool
  | .nil => (.nil, false)
  | .cons c cs =>
    if p c then (.cons (f c) cs, true)
    else
      let r := mapAtFirst p f c
      if r.2 then (.cons r.1 cs, true)
      else
        let r' := mapAtFirstF p f cs
        (.cons c r'.1, r'.2)
end

/-- find_main_content: boilerplate is decomposed from the document, the
main container is selected by the three-way priority chain, and link-only
lists are decomposed inside the selected container; both the mutated
document and the container are returned, the container being a live
subtree of the document in the source. -/
def find_main_content (soup : HNode) : HNode × Option HNode :=
  let d := removeBoilerplate soup
  if (findFirstP divClassPred d).isSome then
    match findFirstP divClassPred d with
    | some m => ((mapAtFirst divClassPred pruneLinkULs d).1, some (pruneLinkULs m))
    | none => (d, none)
  else if (findFirstP articlePred d).isSome then
    match findFirstP articlePred d with
    | some m => ((mapAtFirst articlePred pruneLinkULs d).1, some (pruneLinkULs m))
    | none => (d, none)
  else if (findFirstP mainPred d).isSome then
    match findFirstP mainPred d with
    | some m => ((mapAtFirst mainPred pruneLinkULs d).1, some (pruneLinkULs m))
    | none => (d, none)
  else (d, none)

/-! find_next_page (src/parser.py lines 214-227). -/

/-- Tag.string: the single text child of a tag, recursing through a single
element child; None when the tag has zero or several children. -/
def nodeString : HNode → Option String
  | .text s => some s
  | .elem _ _ (.cons c .nil) => nodeString c
  | .elem _ _ _ => none

/-- The text filter of the next-link search: an anchor whose string matches
the next, older or guillemet regex case-insensitively. -/
def nextTextPred (n : HNode) : Bool :=
  n.tagOf == some "a" &&
  (match nodeString n with
   | none => false
   | some s =>
     strContains (pyLower s) "next" || strContains (pyLower s) "older" ||
     strContains (pyLower s) "»")

/-- The page number of an href containing a page query parameter: the
digits after the leftmost occurrence that is followed by at least one
digit, matching the search of the page regex. -/
def pageNumOf (href : String) : Option Nat :=
  let l := chars href
  match (List.range (l.length + 1)).find? (fun i =>
      (chars "?page=").isPrefixOf (l.drop i) &&
      !((l.drop (i + 6)).takeWhile Char.isDigit).isEmpty) with
  | none => none
  | some i => some (digitsToNat ((l.drop (i + 6)).takeWhile Char.isDigit))

/-- The href filter of the numeric pagination search. -/
def pageLinkPred (n : HNode) : Bool :=
  n.tagOf == some "a" &&
  (match attrGet n.attrsOf "href" with
   | none => false
   | some h => (pageNumOf h).isSome)

/-- The numeric branch of find_next_page.  The source dereferences
soup.url, an attribute a BeautifulSoup object does not carry: attribute
access falls back to finding a url element.  When no such element exists
the membership test is applied to None and raises TypeError; when one
exists and contains the query text, re.search is applied to a Tag and
raises TypeError; otherwise the current page defaults to one and the first
anchor whose page number is two is returned. -/
def numericBranch (soup : HNode) (base_url : String) : Except Unit (Option String) :=
  let page_links := findAllP pageLinkPred soup
  if page_links.isEmpty then .ok none
  else
    match findFirstP (fun n => n.tagOf == some "url") soup with
    | none => .error ()
    | some u =>
      if u.childrenOf.any (fun c => match c with | .text s => s == "?page=" | _ => false) then
        .error ()
      else
        let current_page := 1
        match page_links.find? (fun l =>
            pageNumOf ((attrGet l.attrsOf "href").getD "") == some (current_page + 1)) with
        | some l => .ok (some (urljoin base_url ((attrGet l.attrsOf "href").getD "")))
        | none => .ok none

/-- find_next_page: first an anchor whose string matches the next-text
regex, returning its resolved href when it has one; otherwise the numeric
pagination branch. -/
def find_next_page (soup : HNode) (base_url : String) : Except Unit (Option String) :=
  match findFirstP nextTextPred soup with
  | some nl =>
    match attrGet nl.attrsOf "href" with
    | some h => .ok (some (urljoin base_url h))
    | none => numericBranch soup base_url
  | none => numericBranch soup base_url

/-! Metadata extraction (src/parser.py lines 257-296). -/

/-- Decimal rendering of a number. -/
def natToStr (n : Nat) : String := toString n

/-- Zero-padded two-digit rendering, as strftime produces for the day. -/
def pad2 (n : Nat) : String := if n < 10 then "0" ++ natToStr n else natToStr n

/-- Gregorian leap-year rule. -/
def isLeapYear (y : Nat) : Bool := (y % 4 == 0 && y % 100 != 0) || y % 400 == 0

/-- Number of days of a month. -/
def daysInMonth (y m : Nat) : Nat :=
  if m == 2 then (if isLeapYear y then 29 else 28)
  else if [4, 6, 9, 11].contains m then 30 else 31

/-- strftime of a date with the month-abbreviation format of the source. -/
def fmtDate (y m d : Nat) : String :=
  (monthNames.getD (m - 1) "") ++ " " ++ pad2 d ++ ", " ++ natToStr y

/-- Modelled from the documented behavior of dateutil.parser.parse followed
by strftime on an ISO match of the date regex: a valid calendar date is
reformatted, an invalid one raises ValueError, yielding none so that the
caller falls back to the raw matched text. -/
def formatIsoDate (s : String) : Option String :=
  match chars s with
  | [a, b, c, d, '-', e, f, '-', g, h] =>
    let y := digitsToNat [a, b, c, d]
    let m := digitsToNat [e, f]
    let dd := digitsToNat [g, h]
    if 1 ≤ y ∧ 1 ≤ m ∧ m ≤ 12 ∧ 1 ≤ dd ∧ dd ≤ daysInMonth y m then some (fmtDate y m dd)
    else none
  | _ => none

/-- Modelled from the documented behavior of dateutil.parser.parse followed
by strftime on a slash match of the date regex: the first field is read as
the month; when it exceeds twelve dateutil swaps day and month; an invalid
date raises ValueError, yielding none. -/
def formatSlashDate (s : String) : Option String :=
  match chars s with
  | [a, b, '/', c, d, '/', e, f, g, h] =>
    let m := digitsToNat [a, b]
    let dd := digitsToNat [c, d]
    let y := digitsToNat [e, f, g, h]
    if 1 ≤ y ∧ 1 ≤ m ∧ m ≤ 12 ∧ 1 ≤ dd ∧ dd ≤ daysInMonth y m then some (fmtDate y m dd)
    else if 1 ≤ y ∧ 1 ≤ dd ∧ dd ≤ 12 ∧ 1 ≤ m ∧ m ≤ daysInMonth y dd then
      some (fmtDate y dd m)
    else none
  | _ => none

/-- extract_date: search the document's full text for, in order, the
month-name pattern, the ISO pattern, then the slash pattern; a month-name
match is returned verbatim, the other matches are reformatted with a
fallback to the raw match when date parsing fails. -/
def extract_date (soup : HNode) : Option String :=
  let text := getTextRaw soup
  match searchMonthDate text with
  | some d => some d
  | none =>
    match isoScan (chars text) with
    | some d => some ((formatIsoDate d).getD d)
    | none =>
      match slashScan (chars text) with
      | some d => some ((formatSlashDate d).getD d)
      | none => none

/-- The author record: a dict with optional name and url keys. -/
structure AuthorInfo where
  name : Option String
  url : Option String
deriving DecidableEq

/-- extract_author: the content attributes of the author meta tag and of
the article-author meta tag; reading the content attribute of a found meta
tag that lacks it raises KeyError, modelled as an error.  An empty record
becomes None. -/
def extract_author (soup : HNode) : Except Unit (Option AuthorInfo) := do
  let am := findFirstP
    (fun n => n.tagOf == some "meta" && attrGet n.attrsOf "name" == some "author") soup
  let um := findFirstP
    (fun n => n.tagOf == some "meta" && attrGet n.attrsOf "property" == some "article:author") soup
  let nameField : Option String ←
    match am with
    | none => pure none
    | some t =>
      match attrGet t.attrsOf "content" with
      | none => .error ()
      | some v => pure (some v)
  let urlField : Option String ←
    match um with
    | none => pure none
    | some t =>
      match attrGet t.attrsOf "content" with
      | none => .error ()
      | some v => pure (some v)
  if nameField.isNone && urlField.isNone then pure none
  else pure (some ⟨nameField, urlField⟩)

/-- The metadata record of a page result. -/
structure Metadata where
  publication_date : Option String
  author : Option AuthorInfo
deriving DecidableEq

/-- extract_metadata: publication date and author of the document. -/
def extract_metadata (soup : HNode) : Except Unit Metadata := do
  let a ← extract_author soup
  pure ⟨extract_date soup, a⟩

/-! Content classification (classify_content, src/parser.py lines 230-254). -/

/-- Occurrence of a literal phrase with word boundaries on both sides,
the building block of the classifier's content regexes. -/
def boundedPhrase (hay needle : String) : Bool :=
  let h := chars hay
  let n := chars needle
  (List.range (h.length + 1)).any (fun i =>
    n.isPrefixOf (h.drop i) &&
    (i == 0 || !isWordChar (h.getD (i - 1) ' ')) &&
    boundaryAfter (h.drop (i + n.length)))

/-- The ordered classifier rule table: label, content phrases and URL
keywords.  The step character class of the Tutorial regex is expanded to
its nine literal alternatives. -/
def classifyRules : List (String × List String × List String) :=
  [("News", (["breaking news", "latest update", "press release"],
             ["news", "bbc", "cnn", "nytimes", "reuters", "ap"])),
   ("Recipe", (["ingredients", "directions", "prep time", "cook time"],
               ["recipe", "food", "cooking"])),
   ("Product", (["add to cart", "product details", "shipping info"],
                ["product", "shop", "store"])),
   ("Review", (["review", "rating", "stars out of", "verdict"], ["review"])),
   ("Tutorial", (["step 1", "step 2", "step 3", "step 4", "step 5", "step 6",
                  "step 7", "step 8", "step 9", "how to", "tutorial", "guide"],
                 ["tutorial", "how-to"])),
   ("Blog Post", (["posted on", "blog post", "thoughts on"], ["blog"]))]

/-- classify_content: the first rule whose content regex matches the first
thousand characters of the lowercased text or whose keyword occurs in the
lowercased host or path wins; otherwise the result is Article through
either the redundant special case or the final default. -/
def classify_content (url : String) (content : String) (metadata : Metadata) : String :=
  let domain := pyLower (urlNetloc url)
  let path := pyLower (urlPath url)
  let lower_content := strOf ((chars (pyLower content)).take 1000)
  match classifyRules.find? (fun r =>
      r.2.1.any (fun ph => boundedPhrase lower_content ph) ||
      r.2.2.any (fun kw => strContains domain kw || strContains path kw)) with
  | some r => r.1
  | none =>
    if strContains domain "medium.com" || metadata.author.isSome then "Article" else "Article"

/-! Fetching and the pagination walk (fetch_page and parse_url,
src/parser.py lines 19-33 and 299-360). -/

/-- An HTTP response of the abstract transport: a status code and the
parse tree of the body. -/
structure HttpResponse where
  status : Nat
  body : HNode

/-- fetch_page over an abstract transport standing for requests.get: a
transport-level exception (RequestException, covering connection failures
and timeouts) is caught and yields no document; response.raise_for_status
raises HTTPError exactly for status codes 400 through 599, also caught;
any other response is parsed and returned. -/
def fetch_page (transport : String → Except Unit HttpResponse) (url : String) :
    Option HNode :=
  match transport url with
  | .error _ => none
  | .ok r => if 400 ≤ r.status ∧ r.status < 600 then none else some r.body

/-- One page result: url, content, metadata, content type and the page's
first ten links. -/
structure Page where
  url : String
  content : List Item
  metadata : Metadata
  content_type : String
  links : List Link
deriving DecidableEq

/-- The result of parse_url: a pages-and-links dict, or the error dict
produced by the surrounding try block (its message is not modelled). -/
inductive ParseResult where
  | ok (pages : List Page) (links : List Link)
  | failed
deriving DecidableEq

/-- One step of the deduplicating dict comprehension keyed by href: a new
href is appended, an existing key keeps its position but its value is
overwritten. -/
def upsertLink (d : List Link) (l : Link) : List Link :=
  if d.any (fun x => x.href == l.href) then
    d.map (fun x => if x.href == l.href then l else x)
  else d ++ [l]

/-- The dict comprehension of parse_url's link deduplication: values in
key-insertion order, each key holding the value of its last occurrence. -/
def unique_links (ls : List Link) : List Link := ls.foldl upsertLink []

/-- Python str.join with a single-space separator. -/
def joinSpace : List String → String
  | [] => ""
  | [x] => x
  | x :: xs => x ++ " " ++ joinSpace xs

/-- The classification text of parse_url: the space join of the items
whose text value is a plain string. -/
def textForClassify (content : List Item) : String :=
  joinSpace (content.filterMap (fun it =>
    match it.payload with | .str s => some s | _ => none))

/-- The pagination loop of parse_url, instrumented with the list of URLs
passed to fetch_page.  The fuel counts the remaining iterations of
range(depth); the test against zero after a page is processed models the
current depth reaching depth minus one.  Exceptions escaping a step are
propagated as errors to the surrounding try block. -/
def parseLoop (transport : String → Except Unit HttpResponse)
    (visited : List String) (pages : List Page) (all_links : List Link)
    (url : String) : Nat → Except Unit (List Page × List Link) × List String
  | 0 => (.ok (pages, all_links), [])
  | n + 1 =>
    if visited.contains url then (.ok (pages, all_links), [])
    else
      match fetch_page transport url with
      | none => (.ok (pages, all_links), [url])
      | some soup =>
        let fm := find_main_content soup
        match fm.2 with
        | none => (.ok (pages, all_links), [url])
        | some main =>
          match extract_content main with
          | .error e => (.error e, [url])
          | .ok content =>
            match extract_metadata fm.1 with
            | .error e => (.error e, [url])
            | .ok md =>
              let content_type := classify_content url (textForClassify content) md
              let links := extract_links fm.1 url
              let pages' := pages ++ [⟨url, content, md, content_type, links.take 10⟩]
              let all' := all_links ++ links
              if n == 0 then (.ok (pages', all'), [url])
              else
                match find_next_page fm.1 url with
                | .error e => (.error e, [url])
                | .ok none => (.ok (pages', all'), [url])
                | .ok (some next_page) =>
                  let r := parseLoop transport (url :: visited) pages' all' next_page n
                  (r.1, url :: r.2)

/-- parse_url: run the pagination loop from an empty state, then
deduplicate the accumulated links and truncate to ten times depth; any
exception inside the loop is caught and turned into the error result. -/
def parse_url (transport : String → Except Unit HttpResponse) (url : String)
    (depth : Int) : ParseResult :=
  match (parseLoop transport [] [] [] url depth.toNat).1 with
  | .error _ => .failed
  | .ok r => .ok r.1 ((unique_links r.2).take (10 * depth).toNat)

/-- The URLs passed to fetch_page by a run of parse_url, in order. -/
def fetchTrace (transport : String → Except Unit HttpResponse) (url : String)
    (depth : Int) : List String :=
  (parseLoop transport [] [] [] url depth.toNat).2

/-! Concrete documents and transports on which the pipeline is evaluated. -/

/-- The scenario page: an article with a heading and a paragraph holding a
relative link. -/
def c1doc : HNode := el "[document]" [el "article" [el "h1" [tx "Title"],
  el "p" [tx "Hello ", elA "a" [("href", "/x")] [tx "link"]]]]

/-- The scenario paragraph alone. -/
def c1para : HNode := el "p" [tx "Hello ", elA "a" [("href", "/x")] [tx "link"]]

/-- A transport serving the scenario page at the scenario base URL. -/
def c1tr : String → Except Unit HttpResponse := fun u =>
  if u == "https://ex.com/" then .ok ⟨200, c1doc⟩ else .error ()

/-- A main container holding a blockquote whose quoted paragraph is
repeated as a sibling paragraph. -/
def c2main : HNode := elA "div" [("class", "content")]
  [el "blockquote" [el "p" [tx "Quoted words"]], el "p" [tx "Quoted words"]]

/-- The blockquote container wrapped in a document. -/
def c2doc : HNode := el "[document]" [c2main]

/-- A transport serving the blockquote page. -/
def c2tr : String → Except Unit HttpResponse := fun u =>
  if u == "http://site.example/a" then .ok ⟨200, c2doc⟩ else .error ()

/-- A main container holding an unordered list with one plain item and a
paragraph. -/
def c3main : HNode := elA "div" [("class", "content")]
  [el "ul" [el "li" [tx "item one"]], el "p" [tx "x"]]

/-- The list element of the container alone. -/
def c3ul : HNode := el "ul" [el "li" [tx "item one"]]

/-- A page holding two anchors with the same href and different texts. -/
def c4doc : HNode := el "[document]" [el "article" [el "p" [tx "some words"],
  elA "a" [("href", "http://other.example/t")] [tx "alpha one"],
  elA "a" [("href", "http://other.example/t")] [tx "beta two"]]]

/-- A transport serving the duplicate-href page. -/
def c4tr : String → Except Unit HttpResponse := fun u =>
  if u == "http://site.example/a" then .ok ⟨200, c4doc⟩ else .error ()

/-- A page holding an anchor whose trimmed text is a single character. -/
def c6doc : HNode := el "[document]" [el "article"
  [el "p" [tx "body words"], elA "a" [("href", "http://e.example/p")] [tx "x"]]]

/-- The single-character anchor alone. -/
def c6anchor : HNode := elA "a" [("href", "http://e.example/p")] [tx "x"]

/-- A page whose next link resolves back to the page's own URL. -/
def c7doc : HNode := el "[document]" [el "article" [el "p" [tx "page body here"],
  elA "a" [("href", "/p1")] [tx "Next"]]]

/-- A transport serving the self-linking page. -/
def c7tr : String → Except Unit HttpResponse := fun u =>
  if u == "http://s.example/p1" then .ok ⟨200, c7doc⟩ else .error ()

/-- A page whose only filter-passing anchor sits inside a nav region. -/
def c8doc : HNode := el "[document]"
  [el "nav" [elA "a" [("href", "http://nav.example/x")] [tx "useful read"]],
   el "article" [el "p" [tx "body text"]]]

/-- A transport serving the nav-anchor page. -/
def c8tr : String → Except Unit HttpResponse := fun u =>
  if u == "http://site.example/" then .ok ⟨200, c8doc⟩ else .error ()

/-! Helper lemmas about the heading post-pass. -/

/-- The heading filter only ever drops items: its output is a sublist of
its input, so the surviving nodes keep their relative order. -/
theorem fe_sublist : ∀ l : List Item, (filter_empty_headings l).Sublist l
  | [] => by simp [filter_empty_headings]
  | [x] => by
    by_cases h : isHeadingTag x.tag <;> simp [filter_empty_headings, h]
  | x :: y :: rest => by
    have ih := fe_sublist (y :: rest)
    by_cases h : isHeadingTag x.tag && isHeadingTag y.tag
    · simpa [filter_empty_headings, h] using ih.cons x
    · simpa [filter_empty_headings, h] using ih.cons₂ x

/-- The heading filter keeps every non-heading item. -/
theorem fe_filter_eq : ∀ l : List Item,
    (filter_empty_headings l).filter (fun x => !isHeadingTag x.tag) =
      l.filter (fun x => !isHeadingTag x.tag)
  | [] => by simp [filter_empty_headings]
  | [x] => by
    by_cases h : isHeadingTag x.tag <;> simp [filter_empty_headings, h]
  | x :: y :: rest => by
    have ih := fe_filter_eq (y :: rest)
    by_cases h : isHeadingTag x.tag && isHeadingTag y.tag
    · have hx : isHeadingTag x.tag = true := (Bool.and_eq_true_iff.mp h).1
      simp [filter_empty_headings, h, hx, ih]
    · by_cases hx : isHeadingTag x.tag <;>
        simp [filter_empty_headings, h, hx, ih]

/-- A non-heading head always survives the heading filter in place. -/
theorem fe_head? (y : Item) (r : List Item) (h : isHeadingTag y.tag = false) :
    (filter_empty_headings (y :: r)).head? = some y := by
  cases r with
  | nil => simp [filter_empty_headings, h]
  | cons z r' => simp [filter_empty_headings, h]

/-- No surviving heading is immediately followed by another heading. -/
theorem fe_chain : ∀ l : List Item,
    List.Chain' (fun a b => isHeadingTag a.tag = true → isHeadingTag b.tag = false)
      (filter_empty_headings l)
  | [] => by simp [filter_empty_headings]
  | [x] => by
    by_cases h : isHeadingTag x.tag <;> simp [filter_empty_headings, h]
  | x :: y :: rest => by
    have ih := fe_chain (y :: rest)
    by_cases h : isHeadingTag x.tag && isHeadingTag y.tag
    · simpa [filter_empty_headings, h] using ih
    · have hx := h
      simp only [filter_empty_headings, if_neg hx, List.singleton_append]
      by_cases hxh : isHeadingTag x.tag
      · have hy : isHeadingTag y.tag = false := by
          cases hy : isHeadingTag y.tag
          · rfl
          · exact absurd (by simp [hxh, hy]) hx
        rw [List.chain'_cons']
        refine ⟨?_, ih⟩
        intro z hz
        rw [fe_head? y rest hy] at hz
        intro _
        cases hz
        exact hy
      · rw [List.chain'_cons']
        refine ⟨?_, ih⟩
        intro z hz hc
        exact absurd hc (by simpa using hxh)

/-- No surviving heading is the last node of the output. -/
theorem fe_last : ∀ (l : List Item) (x : Item),
    (filter_empty_headings l).getLast? = some x → isHeadingTag x.tag = false
  | [], x => by simp [filter_empty_headings]
  | [y], x => by
    by_cases h : isHeadingTag y.tag
    · simp [filter_empty_headings, h]
    · intro hx
      simp [filter_empty_headings, h] at hx
      rw [← hx]
      simpa using h
  | y :: z :: rest, x => by
    have ih := fe_last (z :: rest)
    by_cases hnil : filter_empty_headings (z :: rest) = []
    · by_cases h : isHeadingTag y.tag && isHeadingTag z.tag
      · simp [filter_empty_headings, h, hnil]
      · simp only [filter_empty_headings, if_neg h, hnil, List.append_nil]
        intro hx
        simp at hx
        rw [← hx]
        cases hy : isHeadingTag y.tag
        · rfl
        · exfalso
          have hz : isHeadingTag z.tag = false := by
            cases hz : isHeadingTag z.tag
            · rfl
            · exact absurd (by simp [hy, hz]) h
          have hh := fe_head? z rest hz
          rw [hnil] at hh
          simp at hh
    · by_cases h : isHeadingTag y.tag && isHeadingTag z.tag
      · intro hx
        exact ih x (by simpa [filter_empty_headings, h] using hx)
      · intro hx
        rw [show filter_empty_headings (y :: z :: rest) =
              [y] ++ filter_empty_headings (z :: rest) by
            simp [filter_empty_headings, h],
          List.getLast?_append_of_ne_nil _ hnil] at hx
        exact ih x hx

/-! Helper lemmas about find_all. -/

mutual
/-- Every node returned by findAllP satisfies the predicate. -/
theorem findAllP_mem (p : HNode → Bool) : ∀ (n : HNode), ∀ x ∈ findAllP p n, p x = true
  | .text _ => by simp [findAllP]
  | .elem t a cs => by
    intro x hx
    exact findAllPF_mem p cs x (by simpa [findAllP] using hx)
/-- Every node returned by findAllPF satisfies the predicate. -/
theorem findAllPF_mem (p : HNode → Bool) : ∀ (f : HForest), ∀ x ∈ findAllPF p f, p x = true
  | .nil => by simp [findAllPF]
  | .cons c cs => by
    intro x hx
    simp only [findAllPF, List.mem_append] at hx
    rcases hx with (hx | hx) | hx
    · by_cases h : p c = true
      · rw [if_pos h] at hx
        simp at hx
        rw [hx]
        exact h
      · rw [if_neg h] at hx
        simp at hx
    · exact findAllP_mem p c x hx
    · exact findAllPF_mem p cs x hx
end

/-- Every item produced by buildContent from nodes whose names lie in
contentTags has its tag in contentTags. -/
theorem buildContent_tags : ∀ (ts : List HNode),
    (∀ t ∈ ts, (t.tagOf.getD "") ∈ contentTags) →
    ∀ (l : List Item), buildContent ts = .ok l → ∀ it ∈ l, it.tag ∈ contentTags
  | [] => by
    intro _ l hl it hit
    simp only [buildContent] at hl
    cases hl
    simp at hit
  | t :: ts => by
    intro hts l hl it hit
    have ih := buildContent_tags ts (fun u hu => hts u (List.mem_cons_of_mem _ hu))
    have hname : (t.tagOf.getD "") ∈ contentTags := hts t (List.mem_cons_self t ts)
    simp only [buildContent] at hl
    by_cases hb : ((t.tagOf.getD "") == "blockquote") = true
    · rw [if_pos hb] at hl
      exact absurd hl (by simp)
    · rw [if_neg hb] at hl
      by_cases hp : ((t.tagOf.getD "") == "pre") = true
      · rw [if_pos hp] at hl
        cases hrest : buildContent ts with
        | error e => rw [hrest] at hl; exact absurd hl (by simp)
        | ok rest =>
          rw [hrest] at hl
          cases hl
          rcases List.mem_cons.mp hit with hit | hit
          · rw [hit]; simp [extract_pre_content, contentTags]
          · exact ih _ hrest it hit
      · rw [if_neg hp] at hl
        by_cases hs : ((t.tagOf.getD "") == "strong") = true
        · rw [if_pos hs] at hl
          cases hrest : buildContent ts with
          | error e => rw [hrest] at hl; exact absurd hl (by simp)
          | ok rest =>
            rw [hrest] at hl
            cases hl
            rcases List.mem_cons.mp hit with hit | hit
            · rw [hit]; simp [contentTags]
            · exact ih _ hrest it hit
        · rw [if_neg hs] at hl
          cases hrest : buildContent ts with
          | error e => rw [hrest] at hl; exact absurd hl (by simp)
          | ok rest =>
            rw [hrest] at hl
            have hl' : (if (getTextStrip t != "") = true then
                Except.ok (Item.mk (t.tagOf.getD "") (.str (getTextStrip t)) :: rest)
              else Except.ok rest) = Except.ok l := hl
            by_cases ht : (getTextStrip t != "") = true
            · rw [if_pos ht] at hl'
              cases hl'
              rcases List.mem_cons.mp hit with hit | hit
              · rw [hit]; exact hname
              · exact ih _ hrest it hit
            · rw [if_neg ht] at hl'
              cases hl'
              exact ih _ hrest it hit

/-- Every item of a successful extract_content run has its tag among the
walked tag names; in particular no list node is ever produced. -/
theorem extract_content_tags (main : HNode) (l : List Item)
    (hok : extract_content main = .ok l) : ∀ it ∈ l, it.tag ∈ contentTags := by
  intro it hit
  unfold extract_content at hok
  cases hb : buildContent (findAllByNames contentTags main) with
  | error e => rw [hb] at hok; exact absurd hok (by simp)
  | ok content =>
    rw [hb] at hok
    cases hok
    refine buildContent_tags _ ?_ content hb it ((fe_sublist content).subset hit)
    intro u hu
    have := findAllP_mem _ main u hu
    cases u with
    | text s => simp [HNode.tagOf] at this
    | elem t a cs =>
      simp only [HNode.tagOf] at this
      simpa [HNode.tagOf] using List.mem_of_elem_eq_true this

/-- extract_list_content emits a node exactly when some direct li child
has nonempty stripped text, is not blockquote-claimed and contains no
anchor. -/
theorem extract_list_some_iff (tag : HNode) (bq : List String) :
    (extract_list_content tag bq).isSome = true ↔
      ∃ li ∈ tag.childrenOf, li.tagOf = some "li" ∧ getTextStrip li ≠ "" ∧
        bq.contains (getTextStrip li) = false ∧
        findFirstP (fun n => n.tagOf == some "a") li = none := by
  unfold extract_list_content
  by_cases hE : ((tag.childrenOf.filter (fun li => li.tagOf == some "li")).filterMap
      (fun li =>
        if getTextStrip li != "" && !(bq.contains (getTextStrip li)) &&
           (findFirstP (fun n => n.tagOf == some "a") li).isNone
        then some (getTextStrip li) else none)) = []
  · rw [hE]
    simp only [bne_self_eq_false]
    constructor
    · intro h
      simp at h
    · rintro ⟨li, hli, htag, htext, hbq, hfind⟩
      rw [List.filterMap_eq_nil_iff] at hE
      have hmem : li ∈ tag.childrenOf.filter (fun li => li.tagOf == some "li") :=
        List.mem_filter.mpr ⟨hli, by simp [htag]⟩
      have hcond : (getTextStrip li != "" && !bq.contains (getTextStrip li) &&
          (findFirstP (fun n => n.tagOf == some "a") li).isNone) = true := by
        rw [hbq, hfind]
        simp [htext]
      have := hE li hmem
      rw [if_pos hcond] at this
      exact absurd this (by simp)
  · rw [if_pos (by simpa using hE)]
    simp only [Option.isSome_some, true_iff]
    rcases List.exists_mem_of_ne_nil _ hE with ⟨x, hx⟩
    rcases List.mem_filterMap.mp hx with ⟨li, hli, hf⟩
    rcases List.mem_filter.mp hli with ⟨hmem, htag⟩
    by_cases hc : (getTextStrip li != "" && !(bq.contains (getTextStrip li)) &&
        (findFirstP (fun n => n.tagOf == some "a") li).isNone) = true
    · refine ⟨li, hmem, by simpa using htag, ?_, ?_, ?_⟩
      · have := (Bool.and_eq_true_iff.mp (Bool.and_eq_true_iff.mp hc).1).1
        simpa using this
      · have := (Bool.and_eq_true_iff.mp (Bool.and_eq_true_iff.mp hc).1).2
        simpa using this
      · have := (Bool.and_eq_true_iff.mp hc).2
        simpa [Option.isNone_iff_eq_none] using this
    · rw [if_neg hc] at hf
      exact absurd hf (by simp)

/-! Helper lemmas about the link deduplication of parse_url. -/

/-- The first-seen deduplication order the spec describes: each href keeps
the position of its first occurrence. -/
def firstSeenHrefs (hs : List String) : List String :=
  hs.foldl (fun acc h => if h ∈ acc then acc else acc ++ [h]) []

/-- The href sequence of the dict comprehension is the first-seen
deduplication of the input href sequence: overwriting an existing key does
not move it. -/
theorem unique_links_hrefs_aux : ∀ (ls : List Link) (d : List Link),
    (List.foldl upsertLink d ls).map Link.href =
      List.foldl (fun acc h => if h ∈ acc then acc else acc ++ [h])
        (d.map Link.href) (ls.map Link.href)
  | [], d => rfl
  | l :: ls, d => by
    have ih := unique_links_hrefs_aux ls (upsertLink d l)
    simp only [List.foldl_cons, List.map_cons]
    rw [ih]
    congr 1
    by_cases hmem : l.href ∈ d.map Link.href
    · have hany : d.any (fun x => x.href == l.href) = true := by
        rcases List.mem_map.mp hmem with ⟨y, hy, hyh⟩
        exact List.any_eq_true.mpr ⟨y, hy, by simp [hyh]⟩
      rw [upsertLink, if_pos hany, if_pos hmem, List.map_map]
      apply List.map_congr_left
      intro x _
      simp only [Function.comp_apply]
      by_cases hx : (x.href == l.href) = true
      · rw [if_pos hx]
        exact (beq_iff_eq.mp hx).symm
      · rw [if_neg hx]
    · have hany : ¬ d.any (fun x => x.href == l.href) = true := by
        intro hc
        rcases List.any_eq_true.mp hc with ⟨y, hy, hyh⟩
        exact hmem (List.mem_map.mpr ⟨y, hy, beq_iff_eq.mp hyh⟩)
      rw [upsertLink, if_neg hany, if_neg hmem, List.map_append]
      rfl

/-- The href sequence of the deduplicated links is the first-seen
deduplication of the harvested href sequence. -/
theorem unique_links_hrefs (ls : List Link) :
    (unique_links ls).map Link.href = firstSeenHrefs (ls.map Link.href) :=
  unique_links_hrefs_aux ls []

/-- First-seen deduplication never repeats an entry. -/
theorem firstSeenHrefs_aux_nodup : ∀ (hs : List String) (acc : List String),
    acc.Nodup →
    (List.foldl (fun acc h => if h ∈ acc then acc else acc ++ [h]) acc hs).Nodup
  | [], acc => fun h => h
  | h :: hs, acc => by
    intro hacc
    simp only [List.foldl_cons]
    by_cases hmem : h ∈ acc
    · rw [if_pos hmem]
      exact firstSeenHrefs_aux_nodup hs acc hacc
    · rw [if_neg hmem]
      refine firstSeenHrefs_aux_nodup hs (acc ++ [h]) ?_
      simp [List.nodup_append, hacc, hmem]

/-- The hrefs of the deduplicated link list are pairwise distinct. -/
theorem unique_links_nodup (ls : List Link) : ((unique_links ls).map Link.href).Nodup := by
  rw [unique_links_hrefs]
  exact firstSeenHrefs_aux_nodup _ [] List.nodup_nil

/-- Every entry of the deduplicated link list is the last harvested link
with its href: a later duplicate overwrites the text of an earlier one. -/
theorem unique_links_last_wins (ls : List Link) :
    ∀ l ∈ unique_links ls, ls.reverse.find? (fun x => x.href == l.href) = some l := by
  induction ls using List.reverseRecOn with
  | nil => intro l hl; simp [unique_links] at hl
  | append_singleton xs x ih =>
    intro l hl
    rw [show unique_links (xs ++ [x]) = upsertLink (unique_links xs) x by
      simp [unique_links]]  at hl
    rw [List.reverse_append, List.reverse_singleton, List.singleton_append,
      List.find?_cons]
    unfold upsertLink at hl
    by_cases hany : (unique_links xs).any (fun e => e.href == x.href) = true
    · rw [if_pos hany] at hl
      rcases List.mem_map.mp hl with ⟨y, hy, hyl⟩
      by_cases hyx : (y.href == x.href) = true
      · rw [if_pos hyx] at hyl
        rw [← hyl]
        simp
      · rw [if_neg hyx] at hyl
        rw [← hyl]
        have hne : (x.href == y.href) = false := by
          rw [beq_eq_false_iff_ne]
          intro he
          exact hyx (beq_iff_eq.mpr he.symm)
        rw [hne]
        exact ih y hy
    · rw [if_neg hany] at hl
      rcases List.mem_append.mp hl with hl | hl
      · have hne : (x.href == l.href) = false := by
          rw [beq_eq_false_iff_ne]
          intro he
          exact hany (List.any_eq_true.mpr ⟨l, hl, beq_iff_eq.mpr he.symm⟩)
        rw [hne]
        exact ih l hl
      · have : l = x := by simpa using hl
        rw [this]
        simp

/-- The final links field of a successful parse is capped at ten times the
requested depth. -/
theorem parse_url_links_cap (tr : String → Except Unit HttpResponse) (u : String)
    (d : Int) (pages : List Page) (links : List Link)
    (h : parse_url tr u d = .ok pages links) : links.length ≤ (10 * d).toNat := by
  unfold parse_url at h
  cases hlp : (parseLoop tr [] [] [] u d.toNat).1 with
  | error e => rw [hlp] at h; exact absurd h (by simp)
  | ok r =>
    rw [hlp] at h
    cases h
    exact List.length_take_le _ _

/-- The final links field of a successful parse is exactly the capped
first-seen-position deduplication of the links harvested by the loop. -/
theorem parse_url_links_shape (tr : String → Except Unit HttpResponse) (u : String)
    (d : Int) (pages : List Page) (links : List Link)
    (h : parse_url tr u d = .ok pages links) :
    ∃ r, (parseLoop tr [] [] [] u d.toNat).1 = .ok r ∧ pages = r.1 ∧
      links = (unique_links r.2).take (10 * d).toNat := by
  unfold parse_url at h
  cases hlp : (parseLoop tr [] [] [] u d.toNat).1 with
  | error e => rw [hlp] at h; exact absurd h (by simp)
  | ok r =>
    rw [hlp] at h
    cases h
    exact ⟨r, rfl, rfl, rfl⟩

/-! Helper lemmas about the pagination loop. -/

/-- A revisited URL halts the pagination loop immediately: the accumulated
pages and links are returned as a success, and nothing is fetched. -/
theorem parseLoop_revisit (tr : String → Except Unit HttpResponse)
    (visited : List String) (pages : List Page) (all_links : List Link)
    (url : String) (n : Nat) (h : visited.contains url = true) :
    parseLoop tr visited pages all_links url n = (.ok (pages, all_links), []) := by
  cases n with
  | zero => rfl
  | succ n =>
    have hm : url ∈ visited := List.mem_of_elem_eq_true h
    simp [parseLoop, hm]

/-- Every URL the loop passes to fetch_page was unvisited when fetched, no
URL is fetched twice, and at most one URL is fetched per remaining depth. -/
theorem parseLoop_trace : ∀ (n : Nat) (tr : String → Except Unit HttpResponse)
    (visited : List String) (pages : List Page) (all_links : List Link) (url : String),
    (∀ u ∈ (parseLoop tr visited pages all_links url n).2, u ∉ visited) ∧
    (parseLoop tr visited pages all_links url n).2.Nodup ∧
    (parseLoop tr visited pages all_links url n).2.length ≤ n
  | 0, tr, visited, pages, all_links, url => by simp [parseLoop]
  | n + 1, tr, visited, pages, all_links, url => by
    by_cases hv : visited.contains url = true
    · rw [parseLoop_revisit tr visited pages all_links url (n + 1) hv]
      simp
    · have hv' : url ∉ visited := fun hm => hv (List.elem_eq_true_of_mem hm)
      cases hf : fetch_page tr url with
      | none => simp [parseLoop, hv, hf, hv']
      | some soup =>
        cases hm : (find_main_content soup).2 with
        | none => simp [parseLoop, hv, hf, hm, hv']
        | some main =>
          cases hc : extract_content main with
          | error e => simp [parseLoop, hv, hf, hm, hc, hv']
          | ok content =>
            cases hmd : extract_metadata (find_main_content soup).1 with
            | error e => simp [parseLoop, hv, hf, hm, hc, hmd, hv']
            | ok md =>
              by_cases hn : (n == 0) = true
              · simp [parseLoop, hv, hf, hm, hc, hmd, hn, hv']
              · cases hnx : find_next_page (find_main_content soup).1 url with
                | error e => simp [parseLoop, hv, hf, hm, hc, hmd, hn, hnx, hv']
                | ok onx =>
                  cases onx with
                  | none => simp [parseLoop, hv, hf, hm, hc, hmd, hn, hnx, hv']
                  | some nextp =>
                    have ih := parseLoop_trace n tr (url :: visited)
                    simp only [parseLoop, hv, hf, hm, hc, hmd, hn, hnx,
                      if_neg, Bool.false_eq_true, ite_false]
                    obtain ⟨ih1, ih2, ih3⟩ := ih _ _ nextp
                    refine ⟨?_, ?_, ?_⟩
                    · intro u hu
                      rcases List.mem_cons.mp hu with rfl | hu
                      · exact hv'
                      · exact fun hmem => ih1 u hu (List.mem_cons_of_mem _ hmem)
                    · exact List.nodup_cons.mpr
                        ⟨fun hmem => ih1 url hmem (List.mem_cons_self _ _), ih2⟩
                    · simpa using Nat.succ_le_succ ih3

/-- The loop accumulates at most one page per remaining depth. -/
theorem parseLoop_pages : ∀ (n : Nat) (tr : String → Except Unit HttpResponse)
    (visited : List String) (pages : List Page) (all_links : List Link) (url : String)
    (pr : List Page) (lr : List Link),
    (parseLoop tr visited pages all_links url n).1 = .ok (pr, lr) →
    pr.length ≤ pages.length + n
  | 0, tr, visited, pages, all_links, url, pr, lr => by
    intro h
    simp only [parseLoop] at h
    cases h
    simp
  | n + 1, tr, visited, pages, all_links, url, pr, lr => by
    intro h
    by_cases hv : visited.contains url = true
    · rw [parseLoop_revisit tr visited pages all_links url (n + 1) hv] at h
      cases h
      simp
    · have hv' : url ∉ visited := fun hm => hv (List.elem_eq_true_of_mem hm)
      cases hf : fetch_page tr url with
      | none =>
        simp [parseLoop, hv', hf] at h
        simp [← h.1]
      | some soup =>
        cases hm : (find_main_content soup).2 with
        | none =>
          simp [parseLoop, hv', hf, hm] at h
          simp [← h.1]
        | some main =>
          cases hc : extract_content main with
          | error e => simp [parseLoop, hv', hf, hm, hc] at h
          | ok content =>
            cases hmd : extract_metadata (find_main_content soup).1 with
            | error e => simp [parseLoop, hv', hf, hm, hc, hmd] at h
            | ok md =>
              by_cases hn : (n == 0) = true
              · simp [parseLoop, hv', hf, hm, hc, hmd, hn] at h
                rw [← h.1]
                simp [Nat.add_comm]
              · cases hnx : find_next_page (find_main_content soup).1 url with
                | error e => simp [parseLoop, hv', hf, hm, hc, hmd, hn, hnx] at h
                | ok onx =>
                  cases onx with
                  | none =>
                    simp [parseLoop, hv', hf, hm, hc, hmd, hn, hnx] at h
                    rw [← h.1]
                    simp [Nat.add_comm]
                  | some nextp =>
                    simp only [parseLoop] at h
                    rw [if_neg (by simpa using hv'), hf] at h
                    simp only [hm, hc, hmd, hnx] at h
                    rw [if_neg (by simpa using hn)] at h
                    have ih := parseLoop_pages n tr (url :: visited) _ _ nextp pr lr h
                    calc pr.length ≤ _ := ih
                    _ ≤ pages.length + (n + 1) := by simp; omega

/-- A failed fetch mid-walk stops the loop with the pages accumulated so
far as a success; the failing URL is the only one attempted. -/
theorem parseLoop_fetch_fail (tr : String → Except Unit HttpResponse)
    (visited : List String) (pages : List Page) (all_links : List Link)
    (url : String) (n : Nat)
    (hv : url ∉ visited) (hf : fetch_page tr url = none) :
    parseLoop tr visited pages all_links url (n + 1) = (.ok (pages, all_links), [url]) := by
  simp [parseLoop, hv, hf]

/-- A nonpositive depth runs zero loop iterations: the result is the empty
success and nothing is fetched. -/
theorem parse_url_nonpositive (tr : String → Except Unit HttpResponse)
    (url : String) (depth : Int) (h : depth ≤ 0) :
    parse_url tr url depth = .ok [] [] ∧ fetchTrace tr url depth = [] := by
  have h0 : depth.toNat = 0 := Int.toNat_of_nonpos h
  constructor
  · unfold parse_url
    rw [h0]
    simp [parseLoop, unique_links]
  · unfold fetchTrace
    rw [h0]
    rfl

/-! Helper lemmas about boilerplate removal. -/

/-- The find_all predicate selecting boilerplate elements. -/
def isBoilerNode (c : HNode) : Bool :=
  match c.tagOf with | some t => boilerplateTags.contains t | none => false

mutual
/-- Boilerplate removal leaves no boilerplate element in a node. -/
theorem removeBoilerplate_clean : ∀ n : HNode,
    findAllP isBoilerNode (removeBoilerplate n) = []
  | .text _ => rfl
  | .elem t a cs => by
    simp only [removeBoilerplate, findAllP]
    exact removeBoilerplateF_clean cs
/-- Boilerplate removal leaves no boilerplate element in a forest. -/
theorem removeBoilerplateF_clean : ∀ f : HForest,
    findAllPF isBoilerNode (removeBoilerplateF f) = []
  | .nil => rfl
  | .cons c cs => by
    cases c with
    | text s =>
      simp only [removeBoilerplateF, findAllPF]
      simp only [isBoilerNode, HNode.tagOf, if_neg, List.nil_append, findAllP]
      exact removeBoilerplateF_clean cs
    | elem t a gs =>
      by_cases hb : boilerplateTags.contains t = true
      · simp only [removeBoilerplateF, if_pos hb]
        exact removeBoilerplateF_clean cs
      · simp only [removeBoilerplateF, if_neg hb, findAllPF]
        have h1 : isBoilerNode (HNode.elem t a (removeBoilerplateF gs)) = false := by
          have hnm : t ∉ boilerplateTags := fun hm => hb (List.elem_eq_true_of_mem hm)
          simp [isBoilerNode, HNode.tagOf, hnm]
        rw [h1]
        simp only [if_neg, List.nil_append, findAllP, Bool.false_eq_true, ite_false]
        rw [removeBoilerplateF_clean gs, removeBoilerplateF_clean cs]
        rfl
end

/-- Pruning link-only lists does not change whether the root node is a
boilerplate element. -/
theorem pruneLinkULs_isBoiler (c : HNode) :
    isBoilerNode (pruneLinkULs c) = isBoilerNode c := by
  cases c <;> rfl

/-- Replacing the first matching descendant does not change whether the
root node is a boilerplate element. -/
theorem mapAtFirst_isBoiler (q : HNode → Bool) (c : HNode) :
    isBoilerNode ((mapAtFirst q pruneLinkULs c).1) = isBoilerNode c := by
  cases c <;> rfl

mutual
/-- Pruning link-only lists keeps a node free of boilerplate elements. -/
theorem pruneLinkULs_clean : ∀ n : HNode,
    findAllP isBoilerNode n = [] → findAllP isBoilerNode (pruneLinkULs n) = []
  | .text _ => fun _ => rfl
  | .elem t a cs => by
    intro h
    simp only [findAllP] at h
    simp only [pruneLinkULs, findAllP]
    exact pruneLinkULsF_clean cs h
/-- Pruning link-only lists keeps a forest free of boilerplate elements. -/
theorem pruneLinkULsF_clean : ∀ f : HForest,
    findAllPF isBoilerNode f = [] → findAllPF isBoilerNode (pruneLinkULsF f) = []
  | .nil => fun _ => rfl
  | .cons c cs => by
    intro h
    simp only [findAllPF, List.append_eq_nil] at h
    obtain ⟨⟨hHead, hChild⟩, hTail⟩ := h
    cases c with
    | text s =>
      simp only [pruneLinkULsF, findAllPF]
      simp only [isBoilerNode, HNode.tagOf, if_neg, List.nil_append, findAllP]
      exact pruneLinkULsF_clean cs hTail
    | elem t a gs =>
      by_cases hu : (t == "ul" && liAllHaveLinks (.elem t a gs)) = true
      · simp only [pruneLinkULsF, if_pos hu]
        exact pruneLinkULsF_clean cs hTail
      · simp only [pruneLinkULsF, if_neg hu, findAllPF]
        have hb : isBoilerNode (HNode.elem t a gs) = false := by
          by_contra hc
          rw [Bool.not_eq_false] at hc
          rw [if_pos hc] at hHead
          exact absurd hHead (by simp)
        have hb2 : isBoilerNode (HNode.elem t a (pruneLinkULsF gs)) = false := by
          simpa [isBoilerNode, HNode.tagOf] using hb
        rw [hb2]
        simp only [Bool.false_eq_true, ite_false, List.nil_append, findAllP]
        rw [pruneLinkULsF_clean gs (by simpa [findAllP] using hChild),
          pruneLinkULsF_clean cs hTail]
        rfl
end

mutual
/-- In-place replacement of the first matching descendant by its pruned
version keeps a node free of boilerplate elements. -/
theorem mapAtFirst_clean (q : HNode → Bool) : ∀ n : HNode,
    findAllP isBoilerNode n = [] →
    findAllP isBoilerNode ((mapAtFirst q pruneLinkULs n).1) = []
  | .text _ => fun _ => rfl
  | .elem t a cs => by
    intro h
    simp only [findAllP] at h
    simp only [mapAtFirst, findAllP]
    exact mapAtFirstF_clean q cs h
/-- In-place replacement of the first matching descendant by its pruned
version keeps a forest free of boilerplate elements. -/
theorem mapAtFirstF_clean (q : HNode → Bool) : ∀ f : HForest,
    findAllPF isBoilerNode f = [] →
    findAllPF isBoilerNode ((mapAtFirstF q pruneLinkULs f).1) = []
  | .nil => fun _ => rfl
  | .cons c cs => by
    intro h
    simp only [findAllPF, List.append_eq_nil] at h
    obtain ⟨⟨hHead, hChild⟩, hTail⟩ := h
    have hcb : isBoilerNode c = false := by
      by_contra hc
      rw [Bool.not_eq_false] at hc
      rw [if_pos hc] at hHead
      exact absurd hHead (by simp)
    by_cases hq : q c = true
    · simp only [mapAtFirstF, if_pos hq, findAllPF]
      rw [pruneLinkULs_isBoiler, hcb]
      simp only [Bool.false_eq_true, ite_false, List.nil_append]
      rw [show findAllP isBoilerNode (pruneLinkULs c) = [] from pruneLinkULs_clean c hChild,
        hTail]
      rfl
    · by_cases hr : (mapAtFirst q pruneLinkULs c).2 = true
      · simp only [mapAtFirstF, if_neg hq, hr, if_pos, findAllPF]
        rw [mapAtFirst_isBoiler, hcb]
        simp only [Bool.false_eq_true, ite_false, List.nil_append]
        rw [mapAtFirst_clean q c hChild, hTail]
        rfl
      · simp only [mapAtFirstF, if_neg hq, hr, Bool.false_eq_true, ite_false, findAllPF]
        rw [hcb]
        simp only [Bool.false_eq_true, ite_false, List.nil_append]
        rw [hChild, mapAtFirstF_clean q cs hTail]
        rfl
end

/-- The document returned by find_main_content holds no nav, header,
footer or aside element: the removal acted on the document itself. -/
theorem find_main_content_clean (doc : HNode) :
    findAllByNames boilerplateTags ((find_main_content doc).1) = [] := by
  have h0 : findAllP isBoilerNode (removeBoilerplate doc) = [] := removeBoilerplate_clean doc
  show findAllP isBoilerNode (find_main_content doc).1 = []
  unfold find_main_content
  cases h1 : findFirstP divClassPred (removeBoilerplate doc) with
  | some m =>
    simp only [h1, Option.isSome_some, if_true]
    exact mapAtFirst_clean _ _ h0
  | none =>
    simp only [h1, Option.isSome_none, Bool.false_eq_true, ite_false]
    cases h2 : findFirstP articlePred (removeBoilerplate doc) with
    | some m =>
      simp only [h2, Option.isSome_some, if_true]
      exact mapAtFirst_clean _ _ h0
    | none =>
      simp only [h2, Option.isSome_none, Bool.false_eq_true, ite_false]
      cases h3 : findFirstP mainPred (removeBoilerplate doc) with
      | some m =>
        simp only [h3, Option.isSome_some, if_true]
        exact mapAtFirst_clean _ _ h0
      | none =>
        simp only [h3, Option.isSome_none, Bool.false_eq_true, ite_false]
        exact h0

/-! Helper lemmas about the link filters. -/

/-- The paragraph-embedded link filter rejects an anchor whose text is a
digit run, matches the numeric-comments pattern, is shorter than two
characters, or whose resolved href does not start with http. -/
theorem extract_link_content_excludes (tag : HNode) (bq : List String) (base : String)
    (h : strIsDigit (pyStrip (getTextStrip tag)) = true ∨
         numericCommentsPat (pyStrip (getTextStrip tag)) = true ∨
         pyLen (pyStrip (getTextStrip tag)) < 2 ∨
         pyStartsWith (urljoin base ((attrGet tag.attrsOf "href").getD "")) "http" = false) :
    extract_link_content tag bq base = (none, none) := by
  unfold extract_link_content
  rcases h with h | h | h | h
  · rw [if_neg]
    simp [h]
  · rw [if_neg]
    simp [h]
  · rw [if_neg]
    have h2 : ¬ 1 < pyLen (pyStrip (getTextStrip tag)) := by omega
    simp [h2]
  · rw [if_neg]
    simp [h]

/-- Every link the standalone harvester keeps has an http href, nonempty
text, non-numeric text and no numeric-comments text; the harvester has no
two-character minimum. -/
theorem extract_links_filter (doc : HNode) (base : String) :
    ∀ l ∈ extract_links doc base,
      pyStartsWith l.href "http" = true ∧ l.text ≠ "" ∧
      strIsDigit (pyStrip l.text) = false ∧ numericCommentsPat (pyStrip l.text) = false := by
  intro l hl
  unfold extract_links at hl
  rcases List.mem_filterMap.mp hl with ⟨a_tag, hmem, hf⟩
  dsimp only at hf
  by_cases h1 : (hasVersionPat (getTextStrip a_tag) ||
      (searchMonthDate (getTextStrip a_tag)).isSome) = true
  · rw [if_pos h1] at hf
    exact absurd hf (by simp)
  · rw [if_neg h1] at hf
    by_cases h2 : (pyStartsWith (urljoin base ((attrGet a_tag.attrsOf "href").getD ""))
          "http" &&
        getTextStrip a_tag != "" &&
        !(ignoredTermsHarvest.any (fun term =>
            strContains (pyLower (getTextStrip a_tag)) term)) &&
        !(strIsDigit (pyStrip (getTextStrip a_tag))) &&
        !(numericCommentsPat (pyStrip (getTextStrip a_tag)))) = true
    · rw [if_pos h2] at hf
      have hl2 : l = ⟨getTextStrip a_tag,
          urljoin base ((attrGet a_tag.attrsOf "href").getD "")⟩ := by
        cases hf
        rfl
      simp only [Bool.and_eq_true] at h2
      obtain ⟨⟨⟨⟨hc1, hc2⟩, hc3⟩, hc4⟩, hc5⟩ := h2
      rw [hl2]
      refine ⟨hc1, by simpa using hc2, by simpa using hc4, by simpa using hc5⟩
    · rw [if_neg h2] at hf
      exact absurd hf (by simp)

/-! Claim theorems. -/

/-- C1 is refuted as stated: on the scenario paragraph the pipeline's
extract_content flattens the paragraph to a single plain-text item with
text Hellolink and produces no link output, whereas the claimed ordered
span decomposition is exactly what the never-invoked paragraph decomposer
extract_paragraph_content would produce, and the two payloads differ. -/
theorem claim_C1_counterexample :
    extract_content (el "article" [el "h1" [tx "Title"], c1para]) =
      .ok [⟨"h1", .str "Title"⟩, ⟨"p", .str "Hellolink"⟩] ∧
    extract_paragraph_content c1para [] "https://ex.com/" false =
      ((some ⟨"p", .spans [⟨none, "Hello", none⟩,
          ⟨some "a", "link", some "https://ex.com/x"⟩]⟩,
        [⟨"link", "https://ex.com/x"⟩]), []) ∧
    Payload.str "Hellolink" ≠
      Payload.spans [⟨none, "Hello", none⟩, ⟨some "a", "link", some "https://ex.com/x"⟩] := by
  refine ⟨by decide, by decide, by decide⟩

/-- C1 (amended): for the scenario page with base https://ex.com/, parsing
yields content of a Heading Title item and a Paragraph item with the flat
concatenated text Hellolink; the link record with text link and href
https://ex.com/x appears in the page's and the result's link lists, coming
from the whole-document harvester rather than from the content extractor. -/
theorem claim_C1_scenario_flat :
    parse_url c1tr "https://ex.com/" 1 =
      .ok [⟨"https://ex.com/",
            [⟨"h1", .str "Title"⟩, ⟨"p", .str "Hellolink"⟩],
            ⟨none, none⟩, "Article", [⟨"link", "https://ex.com/x"⟩]⟩]
          [⟨"link", "https://ex.com/x"⟩] := by decide

/-- C2 exposes a code defect: reaching any blockquote makes extract_content
call extract_blockquote_content with one argument although it requires
three, raising TypeError, so on the failing input with a quoted paragraph
repeated as a sibling the extraction errors and parse_url degrades to the
error result instead of performing blockquote suppression. -/
theorem claim_C2_blockquote_typeerror :
    extract_content c2main = .error () ∧
    parse_url c2tr "http://site.example/a" 1 = .failed := by
  refine ⟨by decide, by decide⟩

/-- C3 is refuted as stated: a container whose unordered list has a
qualifying plain item yields no list node from the content walk, although
the unused helper extract_list_content would emit one. -/
theorem claim_C3_counterexample :
    extract_content c3main = .ok [⟨"p", .str "x"⟩] ∧
    extract_list_content c3ul [] = some ⟨"ul", .items ["item one"]⟩ := by
  refine ⟨by decide, by decide⟩

/-- C3 (amended): the content walk never emits a list node because ul and
ol are absent from its tag list; the helper extract_list_content, which is
never invoked, would emit a node exactly when some direct item has
nonempty text, is not blockquote-claimed and contains no link, dropping
other items individually. -/
theorem claim_C3_no_list_nodes :
    (∀ (main : HNode) (l : List Item), extract_content main = .ok l →
      ∀ it ∈ l, it.tag ≠ "ul" ∧ it.tag ≠ "ol") ∧
    (∀ (tag : HNode) (bq : List String),
      (extract_list_content tag bq).isSome = true ↔
        ∃ li ∈ tag.childrenOf, li.tagOf = some "li" ∧ getTextStrip li ≠ "" ∧
          bq.contains (getTextStrip li) = false ∧
          findFirstP (fun n => n.tagOf == some "a") li = none) := by
  constructor
  · intro main l hok it hit
    have hmem := extract_content_tags main l hok it hit
    constructor
    · intro he
      rw [he] at hmem
      exact absurd hmem (by decide)
    · intro he
      rw [he] at hmem
      exact absurd hmem (by decide)
  · exact extract_list_some_iff

/-- Witness for C3 on the concrete list container. -/
theorem claim_C3_no_list_nodes_witness :
    (Item.mk "p" (.str "x")).tag ≠ "ul" ∧
    (extract_list_content c3ul []).isSome = true :=
  ⟨(claim_C3_no_list_nodes.1 c3main [⟨"p", .str "x"⟩] (by decide) ⟨"p", .str "x"⟩
      (by decide)).1,
   (claim_C3_no_list_nodes.2 c3ul []).mpr
     ⟨el "li" [tx "item one"], by decide, by decide, by decide, by decide, by decide⟩⟩

/-- C4 is refuted as stated: with two same-href links in encounter order,
the final links field keeps the text of the second occurrence, not that of
the first. -/
theorem claim_C4_counterexample :
    parse_url c4tr "http://site.example/a" 1 =
      .ok [⟨"http://site.example/a", [⟨"p", .str "some words"⟩], ⟨none, none⟩, "Article",
            [⟨"alpha one", "http://other.example/t"⟩,
             ⟨"beta two", "http://other.example/t"⟩]⟩]
          [⟨"beta two", "http://other.example/t"⟩] ∧
    Link.mk "beta two" "http://other.example/t" ≠
      Link.mk "alpha one" "http://other.example/t" := by
  refine ⟨by decide, by decide⟩

/-- C4 (amended): the final links field holds each href at most once, in
first-occurrence order, but a repeated href keeps the record of its last
occurrence; the deduplicated list is truncated to ten times depth. -/
theorem claim_C4_link_dedup :
    (∀ ls : List Link, ((unique_links ls).map Link.href).Nodup) ∧
    (∀ ls : List Link,
      (unique_links ls).map Link.href = firstSeenHrefs (ls.map Link.href)) ∧
    (∀ (ls : List Link) (l : Link), l ∈ unique_links ls →
      ls.reverse.find? (fun x => x.href == l.href) = some l) ∧
    (∀ (tr : String → Except Unit HttpResponse) (u : String) (d : Int)
      (pages : List Page) (links : List Link),
      parse_url tr u d = .ok pages links → links.length ≤ (10 * d).toNat) :=
  ⟨unique_links_nodup, unique_links_hrefs, unique_links_last_wins, parse_url_links_cap⟩

/-- Witness for C4 on the concrete duplicate-href run. -/
theorem claim_C4_link_dedup_witness :
    ([Link.mk "alpha one" "http://other.example/t",
      Link.mk "beta two" "http://other.example/t"].reverse.find?
        (fun x => x.href == (Link.mk "beta two" "http://other.example/t").href) =
      some ⟨"beta two", "http://other.example/t"⟩) ∧
    ([Link.mk "beta two" "http://other.example/t"] : List Link).length ≤
      (10 * (1 : Int)).toNat :=
  ⟨claim_C4_link_dedup.2.2.1
      [⟨"alpha one", "http://other.example/t"⟩, ⟨"beta two", "http://other.example/t"⟩]
      ⟨"beta two", "http://other.example/t"⟩ (by decide),
   claim_C4_link_dedup.2.2.2 c4tr "http://site.example/a" 1
      [⟨"http://site.example/a", [⟨"p", .str "some words"⟩], ⟨none, none⟩, "Article",
        [⟨"alpha one", "http://other.example/t"⟩, ⟨"beta two", "http://other.example/t"⟩]⟩]
      [⟨"beta two", "http://other.example/t"⟩] (by decide)⟩

/-- C5: after the heading post-pass the output is an order-preserving
selection of the input that keeps every non-heading item, no surviving
heading is immediately followed by another heading, and no surviving
heading is the last item. -/
theorem claim_C5_heading_pruning (content : List Item) :
    (filter_empty_headings content).Sublist content ∧
    (filter_empty_headings content).filter (fun x => !isHeadingTag x.tag) =
      content.filter (fun x => !isHeadingTag x.tag) ∧
    List.Chain' (fun a b => isHeadingTag a.tag = true → isHeadingTag b.tag = false)
      (filter_empty_headings content) ∧
    (∀ x, (filter_empty_headings content).getLast? = some x →
      isHeadingTag x.tag = false) :=
  ⟨fe_sublist content, fe_filter_eq content, fe_chain content, fe_last content⟩

/-- Witness for C5 on a concrete sequence with a dangling and a doubled
heading. -/
theorem claim_C5_heading_pruning_witness :
    isHeadingTag (Item.mk "p" (.str "C")).tag = false :=
  (claim_C5_heading_pruning
    [⟨"h1", .str "A"⟩, ⟨"h2", .str "B"⟩, ⟨"p", .str "C"⟩, ⟨"h3", .str "D"⟩]).2.2.2
    ⟨"p", .str "C"⟩ (by decide)

/-- C6 is refuted as stated: an anchor whose trimmed text is the single
character x is accepted by the standalone harvester, although the
paragraph-embedded filter rejects it. -/
theorem claim_C6_counterexample :
    extract_links c6doc "http://e.example/" = [⟨"x", "http://e.example/p"⟩] ∧
    pyLen (pyStrip "x") < 2 ∧
    extract_link_content c6anchor [] "http://e.example/" = (none, none) := by
  refine ⟨by decide, by decide, by decide⟩

/-- C6 (amended): the paragraph-embedded filter excludes an anchor whose
text is a digit run, matches the numeric-comments pattern, is shorter than
two characters, or whose resolved href does not start with http; the
standalone harvester enforces the same rules except the two-character
minimum, requiring only nonempty text. -/
theorem claim_C6_link_filter :
    (∀ (tag : HNode) (bq : List String) (base : String),
      (strIsDigit (pyStrip (getTextStrip tag)) = true ∨
       numericCommentsPat (pyStrip (getTextStrip tag)) = true ∨
       pyLen (pyStrip (getTextStrip tag)) < 2 ∨
       pyStartsWith (urljoin base ((attrGet tag.attrsOf "href").getD "")) "http" = false) →
      extract_link_content tag bq base = (none, none)) ∧
    (∀ (doc : HNode) (base : String), ∀ l ∈ extract_links doc base,
      pyStartsWith l.href "http" = true ∧ l.text ≠ "" ∧
      strIsDigit (pyStrip l.text) = false ∧ numericCommentsPat (pyStrip l.text) = false) :=
  ⟨extract_link_content_excludes, extract_links_filter⟩

/-- Witness for C6 on a numeric anchor and on the harvested single-char
anchor. -/
theorem claim_C6_link_filter_witness :
    extract_link_content (elA "a" [("href", "http://e.example/p")] [tx "42"]) []
      "http://e.example/" = (none, none) ∧
    pyStartsWith (Link.href ⟨"x", "http://e.example/p"⟩) "http" = true :=
  ⟨claim_C6_link_filter.1 (elA "a" [("href", "http://e.example/p")] [tx "42"]) []
      "http://e.example/" (Or.inl (by decide)),
   (claim_C6_link_filter.2 c6doc "http://e.example/" ⟨"x", "http://e.example/p"⟩
      (by decide)).1⟩

/-- C7: the pagination walk fetches each URL at most once; a revisited URL
halts the loop immediately, returning the pages accumulated so far as a
success with no further fetch, and both the fetched URLs and the
accumulated pages are bounded by the requested depth. -/
theorem claim_C7_cycle_halts :
    (∀ (tr : String → Except Unit HttpResponse) (visited : List String)
      (pages : List Page) (all_links : List Link) (url : String) (n : Nat),
      visited.contains url = true →
      parseLoop tr visited pages all_links url n = (.ok (pages, all_links), [])) ∧
    (∀ (tr : String → Except Unit HttpResponse) (url : String) (depth : Int),
      (fetchTrace tr url depth).Nodup ∧
      (fetchTrace tr url depth).length ≤ depth.toNat) ∧
    (∀ (tr : String → Except Unit HttpResponse) (url : String) (depth : Int)
      (pages : List Page) (links : List Link),
      parse_url tr url depth = .ok pages links → pages.length ≤ depth.toNat) := by
  refine ⟨parseLoop_revisit, ?_, ?_⟩
  · intro tr url depth
    have h := parseLoop_trace depth.toNat tr [] [] [] url
    exact ⟨h.2.1, h.2.2⟩
  · intro tr url depth pages links h
    obtain ⟨r, hr, hp, _⟩ := parse_url_links_shape tr url depth pages links h
    have hlen := parseLoop_pages depth.toNat tr [] [] [] url r.1 r.2 (by rw [hr])
    simpa [hp] using hlen

/-- Witness for C7 on the self-linking page. -/
theorem claim_C7_cycle_halts_witness :
    parseLoop c7tr ["http://s.example/p1"] [] [] "http://s.example/p1" 2 =
      (.ok ([], []), []) ∧
    (fetchTrace c7tr "http://s.example/p1" 3).Nodup :=
  ⟨claim_C7_cycle_halts.1 c7tr ["http://s.example/p1"] [] [] "http://s.example/p1" 2
      (by decide),
   (claim_C7_cycle_halts.2.1 c7tr "http://s.example/p1" 3).1⟩

/-- C8 is refuted as stated: the nav anchor passes the harvest filter on
the intact document, yet harvesting the document returned by
find_main_content yields nothing, because the boilerplate regions were
removed from the document itself and not from a working copy. -/
theorem claim_C8_counterexample :
    extract_links c8doc "http://site.example/" =
      [⟨"useful read", "http://nav.example/x"⟩] ∧
    extract_links ((find_main_content c8doc).1) "http://site.example/" = [] := by
  refine ⟨by decide, by decide⟩

/-- C8 (amended): find_main_content removes boilerplate destructively from
the caller's document, so the document over which parse_url subsequently
harvests links holds no nav, header, footer or aside element at all, and
on the nav-anchor page the parse result has no links. -/
theorem claim_C8_boilerplate_mutation :
    (∀ doc : HNode, findAllByNames boilerplateTags ((find_main_content doc).1) = []) ∧
    parse_url c8tr "http://site.example/" 1 =
      .ok [⟨"http://site.example/", [⟨"p", .str "body text"⟩], ⟨none, none⟩, "Article", []⟩]
        [] :=
  ⟨find_main_content_clean, by decide⟩

/-- C9 is refuted on the non-2xx clause: raise_for_status raises only for
4xx and 5xx, so a 304 response returns a parsed document although 304 is
not a 2xx status. -/
theorem claim_C9_counterexample :
    fetch_page (fun _ => .ok ⟨304, tx "not modified"⟩) "http://a.example/" =
      some (tx "not modified") ∧ ¬(200 ≤ 304 ∧ 304 < 300) := by
  refine ⟨by decide, by decide⟩

/-- C9 (amended): fetch_page yields an absent document on every transport
error and on every 4xx or 5xx status, never raising past the boundary, and
a failed fetch mid-walk makes the loop stop with the pages accumulated so
far as a success. -/
theorem claim_C9_fetch_failure :
    (∀ (tr : String → Except Unit HttpResponse) (url : String) (e : Unit),
      tr url = .error e → fetch_page tr url = none) ∧
    (∀ (tr : String → Except Unit HttpResponse) (url : String) (r : HttpResponse),
      tr url = .ok r → 400 ≤ r.status → r.status < 600 → fetch_page tr url = none) ∧
    (∀ (tr : String → Except Unit HttpResponse) (visited : List String)
      (pages : List Page) (all_links : List Link) (url : String) (n : Nat),
      url ∉ visited → fetch_page tr url = none →
      parseLoop tr visited pages all_links url (n + 1) =
        (.ok (pages, all_links), [url])) := by
  refine ⟨?_, ?_, parseLoop_fetch_fail⟩
  · intro tr url e h
    unfold fetch_page
    rw [h]
  · intro tr url r h h4 h6
    unfold fetch_page
    rw [h]
    simp [h4, h6]

/-- Witness for C9 on a failing transport, a 404 response and a one-page
walk whose only fetch fails. -/
theorem claim_C9_fetch_failure_witness :
    fetch_page (fun _ => .error ()) "http://a.example/" = none ∧
    fetch_page (fun _ => .ok ⟨404, tx "gone"⟩) "http://a.example/" = none ∧
    parseLoop (fun _ => .error ()) [] [] [] "http://a.example/" 1 =
      (.ok ([], []), ["http://a.example/"]) :=
  ⟨claim_C9_fetch_failure.1 (fun _ => .error ()) "http://a.example/" () rfl,
   claim_C9_fetch_failure.2.1 (fun _ => .ok ⟨404, tx "gone"⟩) "http://a.example/"
     ⟨404, tx "gone"⟩ rfl (by decide) (by decide),
   claim_C9_fetch_failure.2.2 (fun _ => .error ()) [] [] [] "http://a.example/" 0
     (by decide)
     (claim_C9_fetch_failure.1 (fun _ => .error ()) "http://a.example/" () rfl)⟩

/-- C10: a depth of zero or less runs no loop iteration, fetches nothing
and returns the empty success result. -/
theorem claim_C10_zero_depth (tr : String → Except Unit HttpResponse) (url : String)
    (depth : Int) (h : depth ≤ 0) :
    parse_url tr url depth = .ok [] [] ∧ fetchTrace tr url depth = [] :=
  parse_url_nonpositive tr url depth h

/-- Witness for C10 at depths zero and minus two. -/
theorem claim_C10_zero_depth_witness :
    parse_url (fun _ => .error ()) "http://a.example/" 0 = .ok [] [] ∧
    fetchTrace (fun _ => .error ()) "http://a.example/" (-2) = [] :=
  ⟨(claim_C10_zero_depth (fun _ => .error ()) "http://a.example/" 0 (by decide)).1,
   (claim_C10_zero_depth (fun _ => .error ()) "http://a.example/" (-2) (by decide)).2⟩

end MiniBookmark
